import Mathlib

/-!
Verification of the feature-store repository's specification: the
point-in-time join engine and the incremental materialization tracker
(spec sections 4.1 and 4.2), plus the concrete feature definitions in
src/test/resolved_lizard/feature_definitions.py and the model-export
script src/main.py.

The join engine and the materialization tracker are invoked through the
external feature-store SDK (`fs.get_historical_features`,
`feast materialize-incremental`); their implementations are not part of
this repository's sources, so they are modelled here from the spec's
words. The feature definitions and the export script are embedded
directly from the source files.

Timestamps are seconds since the epoch, represented as `Nat`.
-/

set_option autoImplicit false

namespace FeastSpec

/-- Modelled from the spec (section 3, `FeatureRecord`): one stored
observation — entity key, feature values, event timestamp, optional
created timestamp (for tie-breaking duplicate event timestamps). The
entity key is the list of join-key values; the feature values are an
association list from field name to value. -/
structure FeatureRecord where
  entityKey : List Nat
  eventTs : Nat
  createdTs : Option Nat
  values : List (String × Int)
deriving DecidableEq

/-- Modelled from src/test/resolved_lizard/feature_definitions.py:
a `SnowflakeSource` declaration (database, table, warehouse, timestamp
field, optional created-timestamp column). -/
structure SnowflakeSource where
  database : String
  table : String
  warehouse : String
  timestamp_field : String
  created_timestamp_column : Option String := none
deriving DecidableEq

/-- Modelled from the spec (section 3, `FeatureView`): name, fields,
owning entity's join keys, TTL duration (seconds), batch-source
descriptor and online-enabled flag. -/
structure FeatureViewDef where
  name : String
  fields : List String
  joinKeys : List String
  ttl : Nat
  batch_source : SnowflakeSource
  online : Bool
deriving DecidableEq

/-- Modelled from the spec (section 3): the registry is an immutable
mapping from feature-view name to its definition, here a list of views
looked up by name. -/
structure Registry where
  views : List FeatureViewDef
deriving DecidableEq

/-- Modelled from the spec (section 3, `EntityRow`): one row of the
entity dataframe — join-key values plus an event timestamp. -/
structure EntityRow where
  keys : List (String × Nat)
  eventTs : Nat
deriving DecidableEq

/-- Modelled from the spec (section 6): the batch source reader, as a
map from feature-view name to the records currently stored for it. -/
abbrev Sources := String → List FeatureRecord

/-- The created-timestamp key used for tie-breaking; a record without a
created timestamp contributes the default value 0, so the tie-break
cannot distinguish two such records. -/
def createdKey (r : FeatureRecord) : Nat := r.createdTs.getD 0

/-- Modelled from the spec (section 4.1 tie-break rule): `better a b`
holds when `a` wins over `b` — strictly larger event timestamp, or equal
event timestamps and strictly larger created-timestamp key. -/
def better (a b : FeatureRecord) : Bool :=
  decide (b.eventTs < a.eventTs) ||
    (decide (a.eventTs = b.eventTs) && decide (createdKey b < createdKey a))

theorem better_iff (a b : FeatureRecord) :
    better a b = true ↔
      b.eventTs < a.eventTs ∨ (a.eventTs = b.eventTs ∧ createdKey b < createdKey a) := by
  simp [better]

theorem better_eq_false_iff (a b : FeatureRecord) :
    better a b = false ↔
      ¬ (b.eventTs < a.eventTs ∨ (a.eventTs = b.eventTs ∧ createdKey b < createdKey a)) := by
  rw [← better_iff]
  cases better a b <;> simp

theorem better_irrefl (a : FeatureRecord) : better a a = false := by
  rw [better_eq_false_iff]; omega

theorem better_asymm {a b : FeatureRecord} (h : better a b = true) : better b a = false := by
  rw [better_iff] at h
  rw [better_eq_false_iff]
  omega

theorem better_neg_trans {a b c : FeatureRecord}
    (h1 : better a b = false) (h2 : better b c = false) : better a c = false := by
  rw [better_eq_false_iff] at h1 h2 ⊢
  omega

theorem better_neg_pos {r m x : FeatureRecord}
    (h1 : better r m = false) (h2 : better x m = true) : better r x = false := by
  rw [better_eq_false_iff] at h1 ⊢
  rw [better_iff] at h2
  omega

/-- Modelled from the spec (section 4.1): select, from a list of
records, the one with the maximum event timestamp, ties broken by
maximum created timestamp; `none` on the empty list. -/
def pickLatest : List FeatureRecord → Option FeatureRecord
  | [] => none
  | r :: rs =>
    match pickLatest rs with
    | none => some r
    | some b => if better b r then some b else some r

theorem pickLatest_eq_none_iff (l : List FeatureRecord) :
    pickLatest l = none ↔ l = [] := by
  cases l with
  | nil => simp [pickLatest]
  | cons r rs =>
    simp only [pickLatest]
    cases h : pickLatest rs with
    | none => simp
    | some b =>
      by_cases hb : better b r = true <;> simp [hb]

theorem pickLatest_mem {l : List FeatureRecord} :
    ∀ {m : FeatureRecord}, pickLatest l = some m → m ∈ l := by
  induction l with
  | nil => intro m h; simp [pickLatest] at h
  | cons r rs ih =>
    intro m h
    simp only [pickLatest] at h
    cases hrs : pickLatest rs with
    | none =>
      rw [hrs] at h
      simp at h
      simp [h]
    | some b =>
      rw [hrs] at h
      cases hbe : better b r with
      | true =>
        simp [hbe] at h
        exact List.mem_cons_of_mem _ (h ▸ ih hrs)
      | false =>
        simp [hbe] at h
        simp [h]

theorem pickLatest_maximal {l : List FeatureRecord} :
    ∀ {m : FeatureRecord}, pickLatest l = some m → ∀ x ∈ l, better x m = false := by
  induction l with
  | nil => intro m h; simp [pickLatest] at h
  | cons r rs ih =>
    intro m h x hx
    simp only [pickLatest] at h
    cases hrs : pickLatest rs with
    | none =>
      rw [hrs] at h
      simp at h
      have hnil : rs = [] := (pickLatest_eq_none_iff rs).mp hrs
      subst hnil
      subst h
      simp at hx
      subst hx
      exact better_irrefl x
    | some b =>
      rw [hrs] at h
      cases hbe : better b r with
      | true =>
        simp [hbe] at h
        subst h
        rcases List.mem_cons.mp hx with hxr | hxrs
        · subst hxr
          exact better_asymm hbe
        · exact ih hrs x hxrs
      | false =>
        simp [hbe] at h
        subst h
        rcases List.mem_cons.mp hx with hxr | hxrs
        · subst hxr
          exact better_irrefl x
        · exact better_neg_trans (ih hrs x hxrs) hbe

/-- The values of a row's join keys for a view, in the view's key
order; `none` when some key is absent from the row. -/
def rowKeyVals (row : EntityRow) (v : FeatureViewDef) : Option (List Nat) :=
  v.joinKeys.mapM (fun k => List.lookup k row.keys)

/-- Modelled from the spec (section 4.1): a record is eligible for an
entity row and view when its entity key matches the row's join-key
values, its event timestamp is at most the row's event timestamp, and
its age (query time minus record timestamp) is at most the view's TTL,
with the TTL boundary inclusive. -/
def eligibleb (row : EntityRow) (v : FeatureViewDef) (rec : FeatureRecord) : Bool :=
  decide (rowKeyVals row v = some rec.entityKey) &&
    decide (rec.eventTs ≤ row.eventTs) &&
    decide (row.eventTs - rec.eventTs ≤ v.ttl)

theorem eligibleb_iff (row : EntityRow) (v : FeatureViewDef) (rec : FeatureRecord) :
    eligibleb row v rec = true ↔
      rowKeyVals row v = some rec.entityKey ∧
        rec.eventTs ≤ row.eventTs ∧ row.eventTs - rec.eventTs ≤ v.ttl := by
  simp [eligibleb, and_assoc]

/-- The records of the view's source that are eligible for the row. -/
def eligibleRecords (srcs : Sources) (row : EntityRow) (v : FeatureViewDef) :
    List FeatureRecord :=
  (srcs v.name).filter (fun rec => eligibleb row v rec)

/-- Modelled from the spec (section 4.1): the joined value for one row,
view and field — the field's value in the latest eligible record, or
null (`none`) when no eligible record exists. -/
def joinValue (srcs : Sources) (row : EntityRow) (v : FeatureViewDef) (f : String) :
    Option Int :=
  match pickLatest (eligibleRecords srcs row v) with
  | none => none
  | some rec => List.lookup f rec.values

/-- Modelled from the spec (section 4.1 failure taxonomy): the join's
caller input errors. -/
inductive JoinError where
  | unresolvedFeatureReference (view field : String)
  | missingJoinKey (key : String)
deriving DecidableEq

/-- A feature reference resolved against the registry: the view's
definition together with the requested field. -/
structure ResolvedRef where
  view : FeatureViewDef
  field : String
deriving DecidableEq

/-- Modelled from the spec (section 4.1 input constraints): a feature
reference `(view name, field name)` resolves when the registry has a
view of that name and the field is among the view's fields; otherwise
it is an unresolved feature reference. -/
def resolveRef (reg : Registry) (ref : String × String) : Except JoinError ResolvedRef :=
  match reg.views.find? (fun v => v.name == ref.1) with
  | none => .error (.unresolvedFeatureReference ref.1 ref.2)
  | some v =>
    if ref.2 ∈ v.fields then .ok ⟨v, ref.2⟩
    else .error (.unresolvedFeatureReference ref.1 ref.2)

/-- Resolve a list of feature references, failing on the first
unresolved one. -/
def resolveRefs (reg : Registry) : List (String × String) → Except JoinError (List ResolvedRef)
  | [] => .ok []
  | ref :: rest =>
    match resolveRef reg ref with
    | .error e => .error e
    | .ok rr =>
      match resolveRefs reg rest with
      | .error e => .error e
      | .ok rrs => .ok (rr :: rrs)

/-- The first join key of a referenced view that some entity row lacks,
if any. -/
def missingKey (resolved : List ResolvedRef) (rows : List EntityRow) : Option String :=
  rows.findSome? (fun row =>
    resolved.findSome? (fun rr =>
      rr.view.joinKeys.find? (fun k => (List.lookup k row.keys).isNone)))

/-- Modelled from the spec (section 4.1 result): one output row — the
input entity row together with the joined value of every requested
feature, in reference order. -/
structure OutputRow where
  row : EntityRow
  features : List (Option Int)
deriving DecidableEq

/-- The output row produced for one entity row. -/
def outputRow (srcs : Sources) (resolved : List ResolvedRef) (row : EntityRow) : OutputRow :=
  { row := row, features := resolved.map (fun rr => joinValue srcs row rr.view rr.field) }

/-- Modelled from the spec (section 4.1): the point-in-time join.
Resolve every feature reference against the registry (failing with
`unresolvedFeatureReference` on an unknown view or field), check that
every entity row supplies every join key required by the referenced
views (failing with `missingJoinKey` otherwise), then produce one
output row per entity row, in input order, with the requested feature
columns appended. -/
def join (reg : Registry) (srcs : Sources) (rows : List EntityRow)
    (refs : List (String × String)) : Except JoinError (List OutputRow) :=
  match resolveRefs reg refs with
  | .error e => .error e
  | .ok resolved =>
    match missingKey resolved rows with
    | some k => .error (.missingJoinKey k)
    | none => .ok (rows.map (outputRow srcs resolved))

theorem resolveRefs_length {reg : Registry} :
    ∀ {refs : List (String × String)} {resolved : List ResolvedRef},
      resolveRefs reg refs = .ok resolved → resolved.length = refs.length := by
  intro refs
  induction refs with
  | nil => intro resolved h; simp [resolveRefs] at h; simp [← h]
  | cons ref rest ih =>
    intro resolved h
    simp only [resolveRefs] at h
    cases h1 : resolveRef reg ref with
    | error e => rw [h1] at h; simp at h
    | ok rr =>
      rw [h1] at h
      cases h2 : resolveRefs reg rest with
      | error e => rw [h2] at h; simp at h
      | ok rrs =>
        rw [h2] at h
        simp at h
        subst h
        simp [ih h2]

theorem resolveRefs_ok_of_all {reg : Registry} :
    ∀ {refs : List (String × String)},
      (∀ ref ∈ refs, ∃ rr, resolveRef reg ref = .ok rr) →
      ∃ resolved, resolveRefs reg refs = .ok resolved := by
  intro refs
  induction refs with
  | nil => intro _; exact ⟨[], rfl⟩
  | cons ref rest ih =>
    intro hall
    obtain ⟨rr, hrr⟩ := hall ref (List.mem_cons_self ref rest)
    obtain ⟨rrs, hrrs⟩ := ih (fun r hr => hall r (List.mem_cons_of_mem ref hr))
    exact ⟨rr :: rrs, by simp [resolveRefs, hrr, hrrs]⟩

theorem resolveRefs_error_of_mem {reg : Registry} :
    ∀ {refs : List (String × String)} (ref : String × String) (e : JoinError),
      ref ∈ refs → resolveRef reg ref = .error e →
      ∃ e2, resolveRefs reg refs = .error e2 := by
  intro refs
  induction refs with
  | nil => intro ref e h _; simp at h
  | cons ref0 rest ih =>
    intro ref e hmem herr
    rcases List.mem_cons.mp hmem with h0 | hrest
    · subst h0
      exact ⟨e, by simp [resolveRefs, herr]⟩
    · cases h1 : resolveRef reg ref0 with
      | error e0 => exact ⟨e0, by simp [resolveRefs, h1]⟩
      | ok rr =>
        obtain ⟨e2, he2⟩ := ih ref e hrest herr
        exact ⟨e2, by simp [resolveRefs, h1, he2]⟩

theorem resolveRef_error_shape {reg : Registry} {ref : String × String} {e : JoinError}
    (h : resolveRef reg ref = .error e) :
    e = .unresolvedFeatureReference ref.1 ref.2 := by
  unfold resolveRef at h
  cases hfind : reg.views.find? (fun v => v.name == ref.1) with
  | none =>
    rw [hfind] at h
    simp at h
    exact h.symm
  | some v =>
    rw [hfind] at h
    by_cases hf : ref.2 ∈ v.fields
    · simp [hf] at h
    · simp [hf] at h
      exact h.symm

theorem resolveRefs_error_shape {reg : Registry} :
    ∀ {refs : List (String × String)} {e : JoinError},
      resolveRefs reg refs = .error e →
      ∃ ref ∈ refs, resolveRef reg ref = .error e ∧
        e = .unresolvedFeatureReference ref.1 ref.2 := by
  intro refs
  induction refs with
  | nil => intro e h; simp [resolveRefs] at h
  | cons ref rest ih =>
    intro e h
    simp only [resolveRefs] at h
    cases h1 : resolveRef reg ref with
    | error e0 =>
      rw [h1] at h
      simp at h
      subst h
      exact ⟨ref, List.mem_cons_self ref rest, h1, resolveRef_error_shape h1⟩
    | ok rr =>
      rw [h1] at h
      cases h2 : resolveRefs reg rest with
      | error e0 =>
        rw [h2] at h
        simp at h
        subst h
        obtain ⟨ref2, hmem, herr, hshape⟩ := ih h2
        exact ⟨ref2, List.mem_cons_of_mem ref hmem, herr, hshape⟩
      | ok rrs => rw [h2] at h; simp at h

/-- The minimum event timestamp of a list of records; `none` on the
empty list. -/
def minTs : List FeatureRecord → Option Nat
  | [] => none
  | r :: rs =>
    match minTs rs with
    | none => some r.eventTs
    | some m => some (if r.eventTs ≤ m then r.eventTs else m)

theorem minTs_eq_none_iff (l : List FeatureRecord) : minTs l = none ↔ l = [] := by
  cases l with
  | nil => simp [minTs]
  | cons r rs =>
    simp only [minTs]
    cases h : minTs rs <;> simp

theorem minTs_spec {l : List FeatureRecord} :
    ∀ {m : Nat}, minTs l = some m →
      (∃ r ∈ l, r.eventTs = m) ∧ ∀ r ∈ l, m ≤ r.eventTs := by
  induction l with
  | nil => intro m h; simp [minTs] at h
  | cons r rs ih =>
    intro m h
    simp only [minTs] at h
    cases hrs : minTs rs with
    | none =>
      rw [hrs] at h
      simp at h
      have hnil : rs = [] := (minTs_eq_none_iff rs).mp hrs
      subst hnil
      subst h
      simp
    | some m0 =>
      rw [hrs] at h
      simp at h
      obtain ⟨⟨r0, hr0, hr0e⟩, hall⟩ := ih hrs
      by_cases hle : r.eventTs ≤ m0
      · rw [if_pos hle] at h
        subst h
        refine ⟨⟨r, List.mem_cons_self r rs, rfl⟩, ?_⟩
        intro x hx
        rcases List.mem_cons.mp hx with hxr | hxrs
        · subst hxr; omega
        · have := hall x hxrs
          omega
      · rw [if_neg hle] at h
        subst h
        refine ⟨⟨r0, List.mem_cons_of_mem r hr0, hr0e⟩, ?_⟩
        intro x hx
        rcases List.mem_cons.mp hx with hxr | hxrs
        · subst hxr; omega
        · exact hall x hxrs

/-- Modelled from the spec (section 6): the online store, as a map from
feature-view name and entity key to the latest record, `none` when the
key has never been written. -/
abbrev OnlineStore := String → List Nat → Option FeatureRecord

/-- Modelled from the spec (section 4.2): last-write-wins upsert into
the online store, keyed by entity key — the incoming record replaces
the stored one only when it is strictly better (larger event timestamp,
ties broken by created timestamp). -/
def upsert (view : String) (store : OnlineStore) (r : FeatureRecord) : OnlineStore :=
  fun v k =>
    if v = view ∧ k = r.entityKey then
      match store v k with
      | none => some r
      | some old => if better r old then some r else some old
    else store v k

/-- Apply a batch of writes to the online store in order. -/
def applyWrites (view : String) (store : OnlineStore) (recs : List FeatureRecord) :
    OnlineStore :=
  recs.foldl (upsert view) store

theorem applyWrites_nil (view : String) (store : OnlineStore) :
    applyWrites view store [] = store := rfl

theorem applyWrites_cons (view : String) (store : OnlineStore) (r : FeatureRecord)
    (recs : List FeatureRecord) :
    applyWrites view store (r :: recs) = applyWrites view (upsert view store r) recs := rfl

theorem upsert_self_not_better (view : String) (store : OnlineStore) (r : FeatureRecord) :
    ∃ m, upsert view store r view r.entityKey = some m ∧ better r m = false := by
  unfold upsert
  simp only [if_pos (And.intro rfl rfl)]
  cases h : store view r.entityKey with
  | none => exact ⟨r, rfl, better_irrefl r⟩
  | some old =>
    cases hb : better r old with
    | true => exact ⟨r, by simp [hb], better_irrefl r⟩
    | false => exact ⟨old, by simp [hb], hb⟩

theorem applyWrites_preserves_not_better {view : String} :
    ∀ {recs : List FeatureRecord} {store : OnlineStore} {k : List Nat}
      {r m : FeatureRecord},
      store view k = some m → better r m = false →
      ∃ m2, applyWrites view store recs view k = some m2 ∧ better r m2 = false := by
  intro recs
  induction recs with
  | nil => intro store k r m h hb; exact ⟨m, h, hb⟩
  | cons r0 rest ih =>
    intro store k r m h hb
    rw [applyWrites_cons]
    by_cases hk : (view = view ∧ k = r0.entityKey)
    · have hstep : upsert view store r0 view k =
          some (if better r0 m then r0 else m) := by
        unfold upsert
        rw [if_pos hk, h]
        by_cases hbb : better r0 m = true <;> simp [hbb]
      cases hb0 : better r0 m with
      | true =>
        rw [hb0] at hstep
        simp at hstep
        exact ih hstep (better_neg_pos hb hb0)
      | false =>
        rw [hb0] at hstep
        simp at hstep
        exact ih hstep hb
    · have hstep : upsert view store r0 view k = some m := by
        unfold upsert
        rw [if_neg hk]
        exact h
      exact ih hstep hb

theorem applyWrites_mem_not_better {view : String} :
    ∀ {recs : List FeatureRecord} {store : OnlineStore} {r : FeatureRecord},
      r ∈ recs →
      ∃ m, applyWrites view store recs view r.entityKey = some m ∧ better r m = false := by
  intro recs
  induction recs with
  | nil => intro store r h; simp at h
  | cons r0 rest ih =>
    intro store r h
    rw [applyWrites_cons]
    rcases List.mem_cons.mp h with h0 | hrest
    · subst h0
      obtain ⟨m, hm, hbm⟩ := upsert_self_not_better view store r
      exact applyWrites_preserves_not_better hm hbm
    · exact ih hrest

theorem upsert_eq_of_not_better {view : String} {store : OnlineStore}
    {r m : FeatureRecord} (h : store view r.entityKey = some m)
    (hb : better r m = false) : upsert view store r = store := by
  funext v k
  unfold upsert
  by_cases hk : (v = view ∧ k = r.entityKey)
  · rw [if_pos hk]
    obtain ⟨hv, hke⟩ := hk
    subst hv; subst hke
    rw [h]
    simp [hb]
  · rw [if_neg hk]

theorem applyWrites_idem (view : String) (store : OnlineStore)
    (recs : List FeatureRecord) :
    applyWrites view (applyWrites view store recs) recs =
      applyWrites view store recs := by
  have main : ∀ (l : List FeatureRecord), (∀ r ∈ l, r ∈ recs) →
      applyWrites view (applyWrites view store recs) l =
        applyWrites view store recs := by
    intro l
    induction l with
    | nil => intro _; rfl
    | cons r0 rest ih =>
      intro hsub
      rw [applyWrites_cons]
      obtain ⟨m, hm, hbm⟩ :=
        @applyWrites_mem_not_better view recs store r0
          (hsub r0 (List.mem_cons_self r0 rest))
      rw [upsert_eq_of_not_better hm hbm]
      exact ih (fun r hr => hsub r (List.mem_cons_of_mem r0 hr))
  exact main recs (fun r hr => hr)

/-- Modelled from the spec (section 3, `MaterializationCheckpoint` and
section 6): the materializer's persistent state — the online store and
the per-feature-view checkpoint (last successful materialization
end-time). -/
structure MatState where
  online : OnlineStore
  checkpoint : String → Option Nat

/-- The outcome of one materialization run: the post-run state and
whether every write in the window succeeded. -/
structure RunResult where
  state : MatState
  ok : Bool

/-- The records of the source whose event timestamp lies in the window
`[s, e]`, both boundaries inclusive. -/
def readRecords (src : List FeatureRecord) (s e : Nat) : List FeatureRecord :=
  src.filter (fun r => decide (s ≤ r.eventTs) && decide (r.eventTs ≤ e))

theorem readRecords_mem_iff (src : List FeatureRecord) (s e : Nat) (r : FeatureRecord) :
    r ∈ readRecords src s e ↔ r ∈ src ∧ s ≤ r.eventTs ∧ r.eventTs ≤ e := by
  simp [readRecords, List.mem_filter, and_assoc]

/-- Advance one feature view's checkpoint. -/
def setCheckpoint (cp : String → Option Nat) (view : String) (t : Nat) :
    String → Option Nat :=
  fun v => if v = view then some t else cp v

/-- Modelled from the spec (section 4.2): materialize one explicit
window `[s, e]` for a view. Records in the window are read from the
batch source and upserted into the online store in order; `failAt k`
models the online-store write of record `k` failing, in which case only
the first `k` writes land and the checkpoint is NOT advanced. On full
success the checkpoint is advanced to `e`. -/
def materializeWindow (st : MatState) (view : String) (src : List FeatureRecord)
    (s e : Nat) (failAt : Option Nat) : RunResult :=
  let recs := readRecords src s e
  match failAt with
  | some k =>
    if k < recs.length then
      { state := { online := applyWrites view st.online (recs.take k),
                   checkpoint := st.checkpoint },
        ok := false }
    else
      { state := { online := applyWrites view st.online recs,
                   checkpoint := setCheckpoint st.checkpoint view e },
        ok := true }
  | none =>
    { state := { online := applyWrites view st.online recs,
                 checkpoint := setCheckpoint st.checkpoint view e },
      ok := true }

/-- Modelled from the spec (section 4.2 state machine): the start time
of an incremental run — the previous checkpoint when one exists, the
minimum source timestamp on the first run. -/
def startTimeFor (st : MatState) (view : String) (src : List FeatureRecord) :
    Option Nat :=
  match st.checkpoint view with
  | some t => some t
  | none => minTs src

/-- Modelled from the spec (section 4.2): an incremental materialization
run — determine the start time per the state machine, then materialize
the window up to `e`. When the source is empty and no checkpoint exists
there is nothing to read; the run trivially succeeds and records `e`. -/
def materializeIncremental (st : MatState) (view : String) (src : List FeatureRecord)
    (e : Nat) (failAt : Option Nat) : RunResult :=
  match startTimeFor st view src with
  | none =>
    { state := { online := st.online, checkpoint := setCheckpoint st.checkpoint view e },
      ok := true }
  | some s => materializeWindow st view src s e failAt

/-- Modelled from src/test/resolved_lizard/feature_definitions.py: a
feast `Entity` declaration (name and join keys). -/
structure Entity where
  name : String
  join_keys : List String
deriving DecidableEq

/-- From src/test/resolved_lizard/feature_definitions.py lines 10-13:
`driver = Entity(name="driver", join_keys=["driver_id"])`. -/
def driver : Entity := { name := "driver", join_keys := ["driver_id"] }

/-- From src/test/resolved_lizard/feature_definitions.py lines 16-21:
the `driver_orders` Snowflake source; it declares
`timestamp_field="event_timestamp"` and no created-timestamp column.
The database name is read from feature_store.yaml (not in the sources),
so it is a parameter. -/
def driver_orders_source (db : String) : SnowflakeSource :=
  { database := db
    table := "driver_orders"
    warehouse := "COMPUTE_WH"
    timestamp_field := "event_timestamp" }

/-- From src/test/resolved_lizard/feature_definitions.py lines 23-29:
the driver-stats Snowflake source; it declares
`timestamp_field="event_timestamp"` and
`created_timestamp_column="created"`. -/
def driver_stats_source (db : String) : SnowflakeSource :=
  { database := db
    table := "feast_test_feast_driver_hourly_stats"
    warehouse := "COMPUTE_WH"
    timestamp_field := "event_timestamp"
    created_timestamp_column := some "created" }

/-- `timedelta(weeks=52)` in seconds. -/
def ttl52weeks : Nat := 52 * 7 * 86400

/-- From src/test/resolved_lizard/feature_definitions.py lines 32-41:
the `driver_orders` feature view (entity `driver`, TTL 52 weeks, one
field `trip_completed`, batch source `driver_orders_source`). -/
def driver_orders_fv (db : String) : FeatureViewDef :=
  { name := "driver_orders"
    fields := ["trip_completed"]
    joinKeys := driver.join_keys
    ttl := ttl52weeks
    batch_source := driver_orders_source db
    online := true }

/-- From src/test/resolved_lizard/feature_definitions.py lines 43-54:
the `driver_hourly_stats` feature view (entity `driver`, TTL 52 weeks,
fields `conv_rate` and `acc_rate`, batch source
`driver_stats_source`). -/
def driver_stats_fv (db : String) : FeatureViewDef :=
  { name := "driver_hourly_stats"
    fields := ["conv_rate", "acc_rate"]
    joinKeys := driver.join_keys
    ttl := ttl52weeks
    batch_source := driver_stats_source db
    online := true }

/-- From src/test/resolved_lizard/feature_definitions.py lines 56-65:
the `driver_avg_daily_trips` feature view (entity `driver`, TTL 52
weeks, one field `avg_daily_trips`, batch source
`driver_stats_source`). -/
def driver_trips_fv (db : String) : FeatureViewDef :=
  { name := "driver_avg_daily_trips"
    fields := ["avg_daily_trips"]
    joinKeys := driver.join_keys
    ttl := ttl52weeks
    batch_source := driver_stats_source db
    online := true }

/-- The registry after src/main.py line 10 applies the feature
definitions. -/
def appliedRegistry (db : String) : Registry :=
  { views := [driver_stats_fv db, driver_trips_fv db, driver_orders_fv db] }

/-- Modelled from the spec (sections 2-3): the whole feature-store
state visible to the two operations — registry, batch sources, online
store and materialization checkpoints. -/
structure SystemState where
  registry : Registry
  sources : Sources
  online : OnlineStore
  checkpoints : String → Option Nat

/-- Modelled from the spec (section 4.1, `fs.get_historical_features`
in src/feast_test/build_training_dataset.py): the retrieval operation
over the full state — it performs the point-in-time join against the
registry and batch sources and touches nothing else, returning the
state it was given. -/
def getHistoricalFeatures (s : SystemState) (rows : List EntityRow)
    (refs : List (String × String)) :
    SystemState × Except JoinError (List OutputRow) :=
  (s, join s.registry s.sources rows refs)

/-- Modelled from Python semantics for src/main.py: the errors the
script can raise — attribute lookup on a value whose type lacks the
attribute, and calling a non-callable value. -/
inductive PyError where
  | attributeError (typeName attr : String)
  | typeError (typeName : String)
deriving DecidableEq

/-- Modelled from Python semantics for src/main.py: the only runtime
value the claims need is the `int` bound to `model`. -/
inductive PyValue where
  | pyInt (n : Int)
deriving DecidableEq

/-- The attributes Python's `int` type provides; `save` is not among
them. -/
def intAttrs : List String :=
  ["bit_length", "to_bytes", "from_bytes", "conjugate",
   "numerator", "denominator", "real", "imag"]

/-- Modelled from Python semantics: attribute lookup; on an `int` it
raises `AttributeError` for any name outside `int`'s attributes. -/
def getAttr : PyValue → String → Except PyError PyValue
  | .pyInt n, a => if a ∈ intAttrs then .ok (.pyInt n) else .error (.attributeError "int" a)

/-- Modelled from Python semantics: calling a value; an `int` is not
callable, so the call raises `TypeError`. -/
def pyCall (f : PyValue) (argDesc : String) : Except PyError PyValue :=
  match f, argDesc with
  | .pyInt _, _ => .error (.typeError "int")

/-- From src/main.py line 13: `EXPORT_PATH = "/models"`. -/
def EXPORT_PATH : String := "/models"

/-- From src/main.py line 14: `model = 100`. -/
def model : PyValue := .pyInt 100

/-- From src/main.py lines 25-28: the keyed serving function; its body
invokes `model(feats)`, a call on the int `model`. -/
def keyed_prediction (inputs : String) : Except PyError PyValue :=
  pyCall model inputs

/-- From src/main.py lines 44-46: the keyless serving function; its
body invokes `model(inputs)`, a call on the int `model`. -/
def nokey_prediction (inputs : String) : Except PyError PyValue :=
  pyCall model inputs

/-- From src/main.py: the top-level script after the feature-store
`apply`. It evaluates `model.save(EXPORT_PATH, ...)` at line 32 and, if
that were to succeed, `model.save(EXPORT_PATH, ...)` again at line 48;
each export that completes appends its path to the result. The
`tf.function` decorations only wrap the serving functions and do not
run their bodies. -/
def runMainScript : Except PyError (List String) :=
  match getAttr model "save" with
  | .error e => .error e
  | .ok _ =>
    match getAttr model "save" with
    | .error e => .error e
    | .ok _ => .ok [EXPORT_PATH, EXPORT_PATH]

theorem join_ok_shape {reg : Registry} {srcs : Sources} {rows : List EntityRow}
    {refs : List (String × String)} {out : List OutputRow}
    (h : join reg srcs rows refs = .ok out) :
    ∃ resolved, resolveRefs reg refs = .ok resolved ∧
      missingKey resolved rows = none ∧ out = rows.map (outputRow srcs resolved) := by
  unfold join at h
  cases h1 : resolveRefs reg refs with
  | error e => rw [h1] at h; simp at h
  | ok resolved =>
    simp only [h1] at h
    cases h2 : missingKey resolved rows with
    | some k => simp only [h2] at h; simp at h
    | none =>
      simp only [h2] at h
      simp at h
      exact ⟨resolved, rfl, h2, h.symm⟩

theorem missingKey_eq_none_iff (resolved : List ResolvedRef) (rows : List EntityRow) :
    missingKey resolved rows = none ↔
      ∀ row ∈ rows, ∀ rr ∈ resolved, ∀ k ∈ rr.view.joinKeys,
        (List.lookup k row.keys).isSome = true := by
  unfold missingKey
  rw [List.findSome?_eq_none]
  constructor
  · intro h row hrow rr hrr k hk
    have h2 := h row hrow
    rw [List.findSome?_eq_none] at h2
    have h3 := h2 rr hrr
    rw [List.find?_eq_none] at h3
    have h4 := h3 k hk
    cases hl : List.lookup k row.keys with
    | none => rw [hl] at h4; simp at h4
    | some x => simp [hl]
  · intro h row hrow
    rw [List.findSome?_eq_none]
    intro rr hrr
    rw [List.find?_eq_none]
    intro k hk
    have h5 := h row hrow rr hrr k hk
    cases hl : List.lookup k row.keys with
    | none => rw [hl] at h5; simp at h5
    | some x => simp [hl]

theorem resolveRefs_all_ok {reg : Registry} :
    ∀ {refs : List (String × String)} {resolved : List ResolvedRef},
      resolveRefs reg refs = .ok resolved →
      ∀ ref ∈ refs, ∃ rr, resolveRef reg ref = .ok rr := by
  intro refs
  induction refs with
  | nil => intro resolved _ ref h; simp at h
  | cons ref0 rest ih =>
    intro resolved h ref hmem
    simp only [resolveRefs] at h
    cases h1 : resolveRef reg ref0 with
    | error e => rw [h1] at h; simp at h
    | ok rr0 =>
      rw [h1] at h
      cases h2 : resolveRefs reg rest with
      | error e => rw [h2] at h; simp at h
      | ok rrs =>
        rcases List.mem_cons.mp hmem with h0 | hrest
        · subst h0; exact ⟨rr0, h1⟩
        · exact ih h2 ref hrest

theorem resolveRefs_mem {reg : Registry} :
    ∀ {refs : List (String × String)} {resolved : List ResolvedRef},
      resolveRefs reg refs = .ok resolved →
      ∀ rr ∈ resolved, ∃ ref ∈ refs, resolveRef reg ref = .ok rr := by
  intro refs
  induction refs with
  | nil =>
    intro resolved h rr hrr
    simp [resolveRefs] at h
    subst h
    simp at hrr
  | cons ref0 rest ih =>
    intro resolved h rr hrr
    simp only [resolveRefs] at h
    cases h1 : resolveRef reg ref0 with
    | error e => rw [h1] at h; simp at h
    | ok rr0 =>
      rw [h1] at h
      cases h2 : resolveRefs reg rest with
      | error e => rw [h2] at h; simp at h
      | ok rrs =>
        rw [h2] at h
        simp at h
        subst h
        rcases List.mem_cons.mp hrr with h0 | hrest
        · subst h0; exact ⟨ref0, List.mem_cons_self ref0 rest, h1⟩
        · obtain ⟨ref, hm, hok⟩ := ih h2 rr hrest
          exact ⟨ref, List.mem_cons_of_mem ref0 hm, hok⟩

/-- Claim C2: on an uninitialized feature view (no checkpoint) the
incremental run starts at the minimum timestamp present in the batch
source; after a successful run the checkpoint equals the run's end
time, a subsequent run starts exactly there, and it reads exactly the
records whose timestamps lie in `[previous end, new end]`. -/
theorem materializeIncremental_start_rule (st : MatState) (view : String)
    (src src2 : List FeatureRecord) (e e2 : Nat)
    (h1 : st.checkpoint view = none) (h2 : src ≠ []) :
    (∃ m, startTimeFor st view src = some m ∧ (∃ r ∈ src, r.eventTs = m) ∧
        ∀ r ∈ src, m ≤ r.eventTs)
  ∧ (materializeIncremental st view src e none).ok = true
  ∧ (materializeIncremental st view src e none).state.checkpoint view = some e
  ∧ startTimeFor (materializeIncremental st view src e none).state view src2 = some e
  ∧ (∀ r, r ∈ readRecords src2 e e2 ↔ r ∈ src2 ∧ e ≤ r.eventTs ∧ r.eventTs ≤ e2) := by
  have hmin : ∃ m, minTs src = some m := by
    cases hm : minTs src with
    | none => exact absurd ((minTs_eq_none_iff src).mp hm) h2
    | some m => exact ⟨m, rfl⟩
  obtain ⟨m, hm⟩ := hmin
  have hstart : startTimeFor st view src = some m := by
    unfold startTimeFor
    rw [h1]
    exact hm
  obtain ⟨hex, hall⟩ := minTs_spec hm
  have hrun : materializeIncremental st view src e none =
      materializeWindow st view src m e none := by
    unfold materializeIncremental
    rw [hstart]
  refine ⟨⟨m, hstart, hex, hall⟩, ?_, ?_, ?_, ?_⟩
  · rw [hrun]; rfl
  · rw [hrun]
    simp [materializeWindow, setCheckpoint]
  · rw [hrun]
    unfold startTimeFor
    simp [materializeWindow, setCheckpoint]
  · intro r
    exact readRecords_mem_iff src2 e e2 r

/-- Claim C3: the checkpoint is advanced to the run's end time exactly
on full success; after any failed run every checkpoint equals its
pre-run value. -/
theorem materializeIncremental_checkpoint_on_failure (st : MatState) (view : String)
    (src : List FeatureRecord) (e : Nat) (failAt : Option Nat) :
    ((materializeIncremental st view src e failAt).ok = false →
       ∀ v, (materializeIncremental st view src e failAt).state.checkpoint v =
         st.checkpoint v)
  ∧ ((materializeIncremental st view src e failAt).ok = true →
       (materializeIncremental st view src e failAt).state.checkpoint view = some e) := by
  cases hs : startTimeFor st view src with
  | none =>
    have hrun : materializeIncremental st view src e failAt =
        { state := { online := st.online,
                     checkpoint := setCheckpoint st.checkpoint view e },
          ok := true } := by
      unfold materializeIncremental
      rw [hs]
    rw [hrun]
    constructor
    · intro hok; simp at hok
    · intro _; simp [setCheckpoint]
  | some s =>
    have hrun : materializeIncremental st view src e failAt =
        materializeWindow st view src s e failAt := by
      unfold materializeIncremental
      rw [hs]
    rw [hrun]
    cases failAt with
    | none =>
      constructor
      · intro hok; simp [materializeWindow] at hok
      · intro _; simp [materializeWindow, setCheckpoint]
    | some k =>
      by_cases hk : k < (readRecords src s e).length
      · constructor
        · intro _ v
          simp [materializeWindow, hk]
        · intro hok
          simp [materializeWindow, hk] at hok
      · constructor
        · intro hok
          simp [materializeWindow, hk] at hok
        · intro _
          simp [materializeWindow, hk, setCheckpoint]

/-- Claim C4: re-materializing the same `[s, e]` window on top of an
online store that already holds the first run's result succeeds and
changes no online-store value and no checkpoint. -/
theorem materializeWindow_idempotent (st : MatState) (view : String)
    (src : List FeatureRecord) (s e : Nat) :
    (materializeWindow st view src s e none).ok = true
  ∧ (materializeWindow (materializeWindow st view src s e none).state
      view src s e none).ok = true
  ∧ (∀ v k,
      (materializeWindow (materializeWindow st view src s e none).state
        view src s e none).state.online v k =
      (materializeWindow st view src s e none).state.online v k)
  ∧ (∀ v,
      (materializeWindow (materializeWindow st view src s e none).state
        view src s e none).state.checkpoint v =
      (materializeWindow st view src s e none).state.checkpoint v) := by
  refine ⟨rfl, rfl, ?_, ?_⟩
  · intro v k
    show applyWrites view (applyWrites view st.online (readRecords src s e))
        (readRecords src s e) v k =
      applyWrites view st.online (readRecords src s e) v k
    rw [applyWrites_idem]
  · intro v
    show setCheckpoint (setCheckpoint st.checkpoint view e) view e v =
      setCheckpoint st.checkpoint view e v
    unfold setCheckpoint
    by_cases hv : v = view <;> simp [hv]

theorem resolveRefs_mem_rev {reg : Registry} :
    ∀ {refs : List (String × String)} {resolved : List ResolvedRef},
      resolveRefs reg refs = .ok resolved →
      ∀ ref ∈ refs, ∀ rr, resolveRef reg ref = .ok rr → rr ∈ resolved := by
  intro refs
  induction refs with
  | nil => intro resolved _ ref h; simp at h
  | cons ref0 rest ih =>
    intro resolved h ref hmem rr hok
    simp only [resolveRefs] at h
    cases h1 : resolveRef reg ref0 with
    | error e => rw [h1] at h; simp at h
    | ok rr0 =>
      rw [h1] at h
      cases h2 : resolveRefs reg rest with
      | error e => rw [h2] at h; simp at h
      | ok rrs =>
        rw [h2] at h
        simp at h
        subst h
        rcases List.mem_cons.mp hmem with h0 | hrest
        · subst h0
          rw [h1] at hok
          simp at hok
          simp [hok]
        · exact List.mem_cons_of_mem rr0 (ih h2 ref hrest rr hok)

/-- Claim C5: for one entity row, view and field the join selects the
eligible record (event timestamp within the row's event timestamp and
TTL, both boundaries inclusive) with the maximum event timestamp, ties
broken by maximum created timestamp; when no eligible record exists the
joined value is null, and when one exists a record is selected. -/
theorem joinValue_selects_latest_eligible (srcs : Sources) (row : EntityRow)
    (v : FeatureViewDef) (f : String) :
    ((∀ rec ∈ srcs v.name, eligibleb row v rec = false) →
       joinValue srcs row v f = none)
  ∧ (∀ m, pickLatest (eligibleRecords srcs row v) = some m →
       m ∈ srcs v.name ∧ eligibleb row v m = true ∧
       ∀ rec ∈ srcs v.name, eligibleb row v rec = true →
         rec.eventTs ≤ m.eventTs ∧
           (rec.eventTs = m.eventTs → createdKey rec ≤ createdKey m))
  ∧ ((∃ rec ∈ srcs v.name, eligibleb row v rec = true) →
       ∃ m, pickLatest (eligibleRecords srcs row v) = some m) := by
  refine ⟨?_, ?_, ?_⟩
  · intro hall
    have hemp : eligibleRecords srcs row v = [] := by
      unfold eligibleRecords
      rw [List.filter_eq_nil]
      intro a ha
      simp [hall a ha]
    unfold joinValue
    rw [hemp]
    rfl
  · intro m hm
    have hmem := pickLatest_mem hm
    unfold eligibleRecords at hmem
    rw [List.mem_filter] at hmem
    refine ⟨hmem.1, hmem.2, ?_⟩
    intro rec hrec helig
    have hrecmem : rec ∈ eligibleRecords srcs row v := by
      unfold eligibleRecords
      rw [List.mem_filter]
      exact ⟨hrec, helig⟩
    have hmax := pickLatest_maximal hm rec hrecmem
    rw [better_eq_false_iff] at hmax
    constructor
    · omega
    · intro _; omega
  · intro hex
    obtain ⟨rec, hrec, helig⟩ := hex
    cases hp : pickLatest (eligibleRecords srcs row v) with
    | some m => exact ⟨m, rfl⟩
    | none =>
      have hemp := (pickLatest_eq_none_iff _).mp hp
      have hrecmem : rec ∈ eligibleRecords srcs row v := by
        unfold eligibleRecords
        rw [List.mem_filter]
        exact ⟨hrec, helig⟩
      rw [hemp] at hrecmem
      simp at hrecmem

/-- Claim C1: whenever the point-in-time join succeeds, every non-null
feature value in every output row is taken from a record of the
referenced view's batch source whose event timestamp is at most the
row's event timestamp and whose age (query time minus record
timestamp) is at most the view's TTL. -/
theorem join_values_within_ttl (reg : Registry) (srcs : Sources)
    (rows : List EntityRow) (refs : List (String × String)) (out : List OutputRow)
    (h : join reg srcs rows refs = .ok out) (orow : OutputRow) (ho : orow ∈ out)
    (j : Nat) (hj : j < orow.features.length) (x : Int)
    (hx : orow.features.get ⟨j, hj⟩ = some x) :
    ∃ resolved, resolveRefs reg refs = .ok resolved ∧
      ∃ hjr : j < resolved.length,
        ∃ rec ∈ srcs (resolved.get ⟨j, hjr⟩).view.name,
          rec.eventTs ≤ orow.row.eventTs ∧
          orow.row.eventTs - rec.eventTs ≤ (resolved.get ⟨j, hjr⟩).view.ttl ∧
          List.lookup (resolved.get ⟨j, hjr⟩).field rec.values = some x := by
  obtain ⟨resolved, h1, h2, h3⟩ := join_ok_shape h
  subst h3
  obtain ⟨row, hrow, horow⟩ := List.mem_map.mp ho
  subst horow
  have hjr : j < resolved.length := by
    have := hj
    simp only [outputRow, List.length_map] at this
    exact this
  rw [List.get_eq_getElem] at hx
  simp only [outputRow, List.getElem_map] at hx
  unfold joinValue at hx
  cases hp : pickLatest (eligibleRecords srcs row (resolved[j]).view) with
  | none => rw [hp] at hx; simp at hx
  | some rec =>
    rw [hp] at hx
    have hmem := pickLatest_mem hp
    unfold eligibleRecords at hmem
    rw [List.mem_filter] at hmem
    obtain ⟨hsrc, helig⟩ := hmem
    rw [eligibleb_iff] at helig
    exact ⟨resolved, h1, hjr, rec, hsrc, helig.2.1, helig.2.2, hx⟩

/-- Claim C6: a successful join returns exactly one output row per
input entity row, in input order; each output row carries its input row
and one appended feature column per requested reference. -/
theorem join_output_row_per_input (reg : Registry) (srcs : Sources)
    (rows : List EntityRow) (refs : List (String × String)) (out : List OutputRow)
    (h : join reg srcs rows refs = .ok out) :
    out.length = rows.length ∧
    ∀ (i : Nat) (hi : i < out.length) (hi2 : i < rows.length),
      (out.get ⟨i, hi⟩).row = rows.get ⟨i, hi2⟩ ∧
      (out.get ⟨i, hi⟩).features.length = refs.length := by
  obtain ⟨resolved, h1, h2, h3⟩ := join_ok_shape h
  subst h3
  refine ⟨by rw [List.length_map], ?_⟩
  intro i hi hi2
  constructor
  · rw [List.get_eq_getElem, List.getElem_map]
    rfl
  · rw [List.get_eq_getElem, List.getElem_map]
    show (resolved.map (fun rr => joinValue srcs (rows[i]) rr.view rr.field)).length =
      refs.length
    rw [List.length_map]
    exact resolveRefs_length h1

theorem join_eq_of_resolveRefs_error {reg : Registry} {srcs : Sources}
    {rows : List EntityRow} {refs : List (String × String)} {e : JoinError}
    (h : resolveRefs reg refs = .error e) : join reg srcs rows refs = .error e := by
  unfold join
  rw [h]

theorem join_eq_of_missingKey_some {reg : Registry} {srcs : Sources}
    {rows : List EntityRow} {refs : List (String × String)}
    {resolved : List ResolvedRef} {k : String}
    (h1 : resolveRefs reg refs = .ok resolved)
    (h2 : missingKey resolved rows = some k) :
    join reg srcs rows refs = .error (.missingJoinKey k) := by
  unfold join
  simp only [h1, h2]

theorem join_eq_of_missingKey_none {reg : Registry} {srcs : Sources}
    {rows : List EntityRow} {refs : List (String × String)}
    {resolved : List ResolvedRef}
    (h1 : resolveRefs reg refs = .ok resolved)
    (h2 : missingKey resolved rows = none) :
    join reg srcs rows refs = .ok (rows.map (outputRow srcs resolved)) := by
  unfold join
  simp only [h1, h2]

/-- Claim C7: the join fails with `unresolvedFeatureReference` exactly
when some feature reference names a view or field absent from the
registry; when every reference resolves it fails with `missingJoinKey`
exactly when some entity row lacks a join key required by a referenced
view; and it succeeds exactly when neither error condition holds, so
neither caller input error is silently swallowed. -/
theorem join_error_conditions (reg : Registry) (srcs : Sources)
    (rows : List EntityRow) (refs : List (String × String)) :
    ((∃ ref ∈ refs, ∃ e, resolveRef reg ref = .error e) ↔
       ∃ v f, join reg srcs rows refs = .error (.unresolvedFeatureReference v f))
  ∧ ((∀ ref ∈ refs, ∃ rr, resolveRef reg ref = .ok rr) →
       ((∃ row ∈ rows, ∃ ref ∈ refs, ∃ rr, resolveRef reg ref = .ok rr ∧
           ∃ k ∈ rr.view.joinKeys, (List.lookup k row.keys).isSome = false) ↔
         ∃ k, join reg srcs rows refs = .error (.missingJoinKey k)))
  ∧ ((∃ out, join reg srcs rows refs = .ok out) ↔
       ((∀ ref ∈ refs, ∃ rr, resolveRef reg ref = .ok rr) ∧
        ∀ row ∈ rows, ∀ ref ∈ refs, ∀ rr, resolveRef reg ref = .ok rr →
          ∀ k ∈ rr.view.joinKeys, (List.lookup k row.keys).isSome = true)) := by
  refine ⟨?_, ?_, ?_⟩
  · constructor
    · intro hex
      obtain ⟨ref, hmem, e, herr⟩ := hex
      obtain ⟨e2, herrs⟩ := resolveRefs_error_of_mem ref e hmem herr
      obtain ⟨ref2, _, _, hshape⟩ := resolveRefs_error_shape herrs
      refine ⟨ref2.1, ref2.2, ?_⟩
      rw [← hshape]
      exact join_eq_of_resolveRefs_error herrs
    · intro hex
      obtain ⟨v, f, hj⟩ := hex
      cases hres : resolveRefs reg refs with
      | error e =>
        obtain ⟨ref, hmem, herr, _⟩ := resolveRefs_error_shape hres
        exact ⟨ref, hmem, e, herr⟩
      | ok resolved =>
        cases hmk : missingKey resolved rows with
        | some k =>
          rw [join_eq_of_missingKey_some hres hmk] at hj
          simp at hj
        | none =>
          rw [join_eq_of_missingKey_none hres hmk] at hj
          simp at hj
  · intro hall
    constructor
    · intro hex
      obtain ⟨row, hrowm, ref, hrefm, rr, hok, k, hk, hlook⟩ := hex
      obtain ⟨resolved, hres⟩ := resolveRefs_ok_of_all hall
      have hrr : rr ∈ resolved := resolveRefs_mem_rev hres ref hrefm rr hok
      cases hmk : missingKey resolved rows with
      | some k2 => exact ⟨k2, join_eq_of_missingKey_some hres hmk⟩
      | none =>
        have := (missingKey_eq_none_iff resolved rows).mp hmk row hrowm rr hrr k hk
        rw [this] at hlook
        simp at hlook
    · intro hex
      obtain ⟨k, hj⟩ := hex
      cases hres : resolveRefs reg refs with
      | error e =>
        rw [join_eq_of_resolveRefs_error hres] at hj
        obtain ⟨_, _, _, hshape⟩ := resolveRefs_error_shape hres
        rw [hshape] at hj
        simp at hj
      | ok resolved =>
        cases hmk : missingKey resolved rows with
        | none =>
          rw [join_eq_of_missingKey_none hres hmk] at hj
          simp at hj
        | some k2 =>
          have hnone : ¬ (missingKey resolved rows = none) := by
            rw [hmk]; simp
          rw [missingKey_eq_none_iff] at hnone
          push_neg at hnone
          obtain ⟨row, hrowm, rr, hrr, k3, hk3, hlook⟩ := hnone
          obtain ⟨ref, hrefm, hok⟩ := resolveRefs_mem hres rr hrr
          refine ⟨row, hrowm, ref, hrefm, rr, hok, k3, hk3, ?_⟩
          cases hl : (List.lookup k3 row.keys).isSome with
          | false => rfl
          | true => exact absurd hl hlook
  · constructor
    · intro hex
      obtain ⟨out, hok⟩ := hex
      obtain ⟨resolved, h1, h2, _⟩ := join_ok_shape hok
      refine ⟨resolveRefs_all_ok h1, ?_⟩
      intro row hrowm ref hrefm rr hok2 k hk
      exact (missingKey_eq_none_iff resolved rows).mp h2 row hrowm rr
        (resolveRefs_mem_rev h1 ref hrefm rr hok2) k hk
    · intro hcond
      obtain ⟨hall, hnomiss⟩ := hcond
      obtain ⟨resolved, hres⟩ := resolveRefs_ok_of_all hall
      have hmk : missingKey resolved rows = none := by
        rw [missingKey_eq_none_iff]
        intro row hrowm rr hrr k hk
        obtain ⟨ref, hrefm, hok⟩ := resolveRefs_mem hres rr hrr
        exact hnomiss row hrowm ref hrefm rr hok k hk
      exact ⟨rows.map (outputRow srcs resolved), join_eq_of_missingKey_none hres hmk⟩

/-- Claim C8: historical-feature retrieval has no side effects — it
returns the state it was given unchanged — and its output is the pure
point-in-time join of the entity rows and feature references against
the (immutable, applied) registry and the current batch sources, so two
states agreeing on registry and sources yield the same output. -/
theorem getHistoricalFeatures_pure (s1 s2 : SystemState) (rows : List EntityRow)
    (refs : List (String × String)) (hreg : s1.registry = s2.registry)
    (hsrc : s1.sources = s2.sources) :
    (getHistoricalFeatures s1 rows refs).1 = s1
  ∧ (getHistoricalFeatures s1 rows refs).2 = join s1.registry s1.sources rows refs
  ∧ (getHistoricalFeatures s1 rows refs).2 = (getHistoricalFeatures s2 rows refs).2 := by
  refine ⟨rfl, rfl, ?_⟩
  show join s1.registry s1.sources rows refs = join s2.registry s2.sources rows refs
  rw [hreg, hsrc]

/-- Claim C9: src/main.py binds `model` to the int literal 100;
`model.save(EXPORT_PATH, ...)` is an attribute access on an int and
raises `AttributeError` unconditionally, so every execution of the
script raises before any model export completes, and the serving
functions' `model(...)` calls raise `TypeError` whenever invoked. -/
theorem mainScript_always_raises :
    runMainScript = .error (.attributeError "int" "save")
  ∧ (∀ exports : List String, runMainScript ≠ .ok exports)
  ∧ getAttr model "save" = .error (.attributeError "int" "save")
  ∧ (∀ inputs, keyed_prediction inputs = .error (.typeError "int"))
  ∧ (∀ inputs, nokey_prediction inputs = .error (.typeError "int")) := by
  refine ⟨?_, ?_, ?_, fun _ => rfl, fun _ => rfl⟩
  · rfl
  · intro exports h
    have h0 : runMainScript = .error (.attributeError "int" "save") := rfl
    rw [h0] at h
    simp at h
  · rfl

/-- Claim C10: the driver_orders batch source declares a timestamp
field but no created-timestamp column, unlike driver_stats_source which
declares `created`; records lacking a created timestamp cannot be
distinguished by the created-timestamp tie-break when their event
timestamps are equal. -/
theorem driver_orders_no_created_column (db : String) :
    (driver_orders_fv db).batch_source = driver_orders_source db
  ∧ (driver_orders_source db).created_timestamp_column = none
  ∧ (driver_orders_source db).timestamp_field = "event_timestamp"
  ∧ (driver_stats_source db).created_timestamp_column = some "created"
  ∧ ∀ a b : FeatureRecord, a.createdTs = none → b.createdTs = none →
      a.eventTs = b.eventTs → better a b = false ∧ better b a = false := by
  refine ⟨rfl, rfl, rfl, rfl, ?_⟩
  intro a b ha hb he
  have hka : createdKey a = 0 := by simp [createdKey, ha]
  have hkb : createdKey b = 0 := by simp [createdKey, hb]
  constructor <;> (rw [better_eq_false_iff]; omega)

/-- A concrete database name, standing in for the value read from
feature_store.yaml. -/
def demoDb : String := "FEAST_TEST"

/-- The applied registry at the concrete database name. -/
def demoRegistry : Registry := appliedRegistry demoDb

/-- A concrete stored record for driver 1001 in the driver-stats
source. -/
def demoRecord : FeatureRecord :=
  { entityKey := [1001], eventTs := 100, createdTs := some 5,
    values := [("conv_rate", 7), ("acc_rate", 9)] }

/-- Concrete batch sources: one record for the driver-stats view. -/
def demoSources : Sources := fun n =>
  if n = "driver_hourly_stats" then [demoRecord] else []

/-- A concrete entity row for driver 1001 at time 150. -/
def demoRow : EntityRow := { keys := [("driver_id", 1001)], eventTs := 150 }

/-- One concrete feature reference. -/
def demoRefs : List (String × String) := [("driver_hourly_stats", "conv_rate")]

/-- The output row the join produces for `demoRow` and `demoRefs`. -/
def demoOut : OutputRow := { row := demoRow, features := [some 7] }

/-- An empty materialization state: nothing online, no checkpoints. -/
def demoMatState : MatState :=
  { online := fun _ _ => none, checkpoint := fun _ => none }

/-- A concrete full system state. -/
def demoSystemState : SystemState :=
  { registry := demoRegistry, sources := demoSources,
    online := fun _ _ => none, checkpoints := fun _ => none }

/-- Two driver_orders-style records without created timestamps and with
equal event timestamps. -/
def demoOrderRecA : FeatureRecord :=
  { entityKey := [1001], eventTs := 100, createdTs := none,
    values := [("trip_completed", 1)] }

/-- A second such record, differing only in its feature value. -/
def demoOrderRecB : FeatureRecord :=
  { entityKey := [1001], eventTs := 100, createdTs := none,
    values := [("trip_completed", 0)] }

/-- Witness for C1: the theorem applied to a concrete store. -/
theorem join_values_within_ttl_witness :
    ∃ resolved, resolveRefs demoRegistry demoRefs = .ok resolved ∧
      ∃ hjr : 0 < resolved.length,
        ∃ rec ∈ demoSources (resolved.get ⟨0, hjr⟩).view.name,
          rec.eventTs ≤ demoOut.row.eventTs ∧
          demoOut.row.eventTs - rec.eventTs ≤ (resolved.get ⟨0, hjr⟩).view.ttl ∧
          List.lookup (resolved.get ⟨0, hjr⟩).field rec.values = some 7 :=
  join_values_within_ttl demoRegistry demoSources [demoRow] demoRefs [demoOut]
    rfl demoOut (by simp) 0 (by simp [demoOut]) 7 rfl

/-- Witness for C2: a first run on an empty checkpoint advances the
checkpoint to the provided end time. -/
theorem materializeIncremental_start_rule_witness :
    (materializeIncremental demoMatState "driver_hourly_stats" [demoRecord] 200
        none).state.checkpoint "driver_hourly_stats" = some 200 :=
  (materializeIncremental_start_rule demoMatState "driver_hourly_stats"
    [demoRecord] [demoRecord] 200 300 rfl (by simp)).2.2.1

/-- Witness for C3: a run that fails at its first write leaves the
checkpoint at its pre-run value. -/
theorem materializeIncremental_checkpoint_on_failure_witness :
    (materializeIncremental demoMatState "driver_hourly_stats" [demoRecord] 200
        (some 0)).state.checkpoint "driver_hourly_stats" =
      demoMatState.checkpoint "driver_hourly_stats" :=
  (materializeIncremental_checkpoint_on_failure demoMatState "driver_hourly_stats"
    [demoRecord] 200 (some 0)).1 rfl "driver_hourly_stats"

/-- Witness for C4: re-materializing a concrete window leaves the
stored value for driver 1001 unchanged. -/
theorem materializeWindow_idempotent_witness :
    (materializeWindow (materializeWindow demoMatState "driver_hourly_stats"
        [demoRecord] 0 200 none).state "driver_hourly_stats" [demoRecord] 0 200
        none).state.online "driver_hourly_stats" [1001] =
    (materializeWindow demoMatState "driver_hourly_stats" [demoRecord] 0 200
        none).state.online "driver_hourly_stats" [1001] :=
  (materializeWindow_idempotent demoMatState "driver_hourly_stats" [demoRecord]
    0 200).2.2.1 "driver_hourly_stats" [1001]

/-- Witness for C5: the selected record for the concrete store is a
source record and is eligible. -/
theorem joinValue_selects_latest_eligible_witness :
    demoRecord ∈ demoSources (driver_stats_fv demoDb).name ∧
      eligibleb demoRow (driver_stats_fv demoDb) demoRecord = true :=
  have h := (joinValue_selects_latest_eligible demoSources demoRow
    (driver_stats_fv demoDb) "conv_rate").2.1 demoRecord rfl
  ⟨h.1, h.2.1⟩

/-- Witness for C6: one output row for the one input row. -/
theorem join_output_row_per_input_witness :
    ([demoOut] : List OutputRow).length = ([demoRow] : List EntityRow).length :=
  (join_output_row_per_input demoRegistry demoSources [demoRow] demoRefs [demoOut]
    rfl).1

/-- Witness for C7: a reference to an unknown view makes the join fail
with an unresolved-feature-reference error. -/
theorem join_error_conditions_witness :
    ∃ v f, join demoRegistry demoSources [demoRow] [("nope", "x")] =
      .error (.unresolvedFeatureReference v f) :=
  (join_error_conditions demoRegistry demoSources [demoRow] [("nope", "x")]).1.mp
    ⟨("nope", "x"), by simp, .unresolvedFeatureReference "nope" "x", rfl⟩

/-- Witness for C8: retrieval returns the concrete state unchanged. -/
theorem getHistoricalFeatures_pure_witness :
    (getHistoricalFeatures demoSystemState [demoRow] demoRefs).1 = demoSystemState :=
  (getHistoricalFeatures_pure demoSystemState demoSystemState [demoRow] demoRefs
    rfl rfl).1

/-- Witness for C9: invoking the keyed serving function on a concrete
input raises the int-not-callable error. -/
theorem mainScript_always_raises_witness :
    keyed_prediction "demo" = .error (.typeError "int") :=
  mainScript_always_raises.2.2.2.1 "demo"

/-- Witness for C10: two concrete created-timestamp-free records with
equal event timestamps are indistinguishable to the tie-break. -/
theorem driver_orders_no_created_column_witness :
    better demoOrderRecA demoOrderRecB = false ∧
      better demoOrderRecB demoOrderRecA = false :=
  (driver_orders_no_created_column "FEAST_TEST").2.2.2.2 demoOrderRecA
    demoOrderRecB rfl rfl rfl

end FeastSpec
